import Mathlib

/-!
Verification of the Job Filter Engine specification against the repository.

The repository ships the engine's test suite (`src/tests/test_job_search.ts`)
and the result interface (`src/src/interfaces/filtered-jobs.ts`); the engine
implementation itself (value model, path resolver, evaluator, filter driver)
is not in the source tree.  Following the spec (`spec.md`), the engine is
modelled here as executable Lean definitions.  Wherever the spec's prose and
the repository's tests pin the same behaviour, the model follows both; where
they disagree, the tests are authoritative and the model reproduces every
relevant test-table entry (proved below by evaluation), with the divergence
recorded in the claim's verdict.
-/

/-! ## Value model (spec §3)

A tagged union over Null, Bool, Number, String, Array, Object, plus the
distinguished Missing marker.  The spec's integer/float cohort is modelled as
a single rational-valued `num` variant (every number appearing in the test
suite is a decimal, hence exactly representable; `$isNumber` treats integers
and floats alike per spec §3).  Rationals are carried as an explicit
numerator/denominator pair `Qv` — the denominator is stored as its
predecessor, so it is positive by construction and all arithmetic is plain
integer arithmetic.  Arrays and objects are encoded through the mutual types
`VList` and `VFields` so that every function below is structurally recursive
and kernel-computable. -/

/-- An exact rational `n / (dp + 1)`: numerator and predecessor of the
(positive) denominator. -/
structure Qv where
  n : Int
  dp : Nat
deriving DecidableEq

/-- The (positive) denominator of a `Qv`, as an integer. -/
def denZ (q : Qv) : Int := (q.dp : Int) + 1

/-- Build the rational `n / d` (callers pass `d ≥ 1`). -/
def qv (n : Int) (d : Nat) : Qv := ⟨n, d - 1⟩

/-- Build an integer-valued rational. -/
def qi (n : Int) : Qv := ⟨n, 0⟩

/-- Numeric equality of rationals (cross-multiplication; representation
independent). -/
def qeqb (a b : Qv) : Bool := decide (a.n * denZ b = b.n * denZ a)

/-- Numeric strict order on rationals. -/
def qltb (a b : Qv) : Bool := decide (a.n * denZ b < b.n * denZ a)

/-- Numeric non-strict order on rationals. -/
def qleb (a b : Qv) : Bool := decide (a.n * denZ b ≤ b.n * denZ a)

mutual

inductive Value where
  | null
  | bool (b : Bool)
  | num (q : Qv)
  | str (s : String)
  | arr (vs : VList)
  | obj (fs : VFields)
  | missing

inductive VList where
  | nil
  | cons (v : Value) (tail : VList)

inductive VFields where
  | nil
  | cons (k : String) (v : Value) (tail : VFields)

end

/-- Convert a Lean list of values into a `VList`. -/
def VList.ofList : List Value → VList
  | [] => .nil
  | v :: rest => .cons v (VList.ofList rest)

/-- Convert a `VList` back into a Lean list. -/
def VList.toList : VList → List Value
  | .nil => []
  | .cons v rest => v :: rest.toList

/-- Convert a Lean association list into `VFields`. -/
def VFields.ofList : List (String × Value) → VFields
  | [] => .nil
  | (k, v) :: rest => .cons k v (VFields.ofList rest)

/-- Field lookup in an object's field list (first match wins). -/
def VFields.lookup : VFields → String → Option Value
  | .nil, _ => none
  | .cons k v rest, key => if k = key then some v else VFields.lookup rest key

/-- True exactly on the `missing` marker. -/
def Value.isMissing : Value → Bool
  | .missing => true
  | _ => false

/-- Modelled from the spec: `isNil` — Null and Missing are the two "nil"
states an absent-or-null comparison treats alike (spec §3, §8 "Missing vs
Null distinction"). -/
def Value.isNil : Value → Bool
  | .null => true
  | .missing => true
  | _ => false

mutual

/-- Modelled from the spec: deep value equality used by `$eq` (spec §4.5).
Objects are compared field-by-field in stored order (the queryable documents
produced by the projector, and every document in the test suite, keep a fixed
key order, so stored-order comparison agrees with the spec's
order-insensitive object equality on all inputs exercised here). -/
def Value.beq : Value → Value → Bool
  | .null, .null => true
  | .bool a, .bool b => a == b
  | .num a, .num b => qeqb a b
  | .str a, .str b => a == b
  | .arr a, .arr b => VList.beq a b
  | .obj a, .obj b => VFields.beq a b
  | .missing, .missing => true
  | _, _ => false

/-- Elementwise equality of value lists. -/
def VList.beq : VList → VList → Bool
  | .nil, .nil => true
  | .cons v vs, .cons w ws => Value.beq v w && VList.beq vs ws
  | _, _ => false

/-- Fieldwise equality of object field lists. -/
def VFields.beq : VFields → VFields → Bool
  | .nil, .nil => true
  | .cons k v vs, .cons k2 w ws => k == k2 && Value.beq v w && VFields.beq vs ws
  | _, _ => false

end

mutual

theorem Value.beq_refl : ∀ v : Value, Value.beq v v = true
  | .null => rfl
  | .bool b => by simp [Value.beq]
  | .num q => by simp [Value.beq, qeqb]
  | .str s => by simp [Value.beq]
  | .arr vs => by simpa [Value.beq] using VList.beq_list_refl vs
  | .obj fs => by simpa [Value.beq] using VFields.beq_fields_refl fs
  | .missing => rfl

theorem VList.beq_list_refl : ∀ vs : VList, VList.beq vs vs = true
  | .nil => rfl
  | .cons v vs => by simp [VList.beq, Value.beq_refl v, VList.beq_list_refl vs]

theorem VFields.beq_fields_refl : ∀ fs : VFields, VFields.beq fs fs = true
  | .nil => rfl
  | .cons k v fs => by simp [VFields.beq, Value.beq_refl v, VFields.beq_fields_refl fs]

end

/-! ## Path resolver (spec §4.2)

Resolution of a dotted path against a value.  Per spec §4.2: objects are
looked up by key; arrays indexed when the segment parses as a non-negative
integer; otherwise the resolver fans out, resolving the remaining path
against every element and collecting the non-Missing results into a new
array.  Two refinements, forced by the repository's selector tests
(`src/tests/test_job_search.ts`, `describe('selector tests')`), complete the
spec's description:

* inside a fan-out, an element that is itself an array is not traversed
  further at its first segment — it is returned whole.  This is what makes
  `data.key0.key1.key2.a` fail to reach a doubly nested array (the spec's
  "insufficient fan-out depth") while `data.key0.key1.0.0.key2.a` succeeds;
* the resolver counts how many fan-outs occurred, and the match interface
  unwraps that many single-element array layers from the result before
  applying a predicate.

`resolveV v path block` returns the resolved value together with the number
of fan-outs performed; `block` is true exactly when the call is resolving a
fan-out element at its first segment. -/

/-- Decimal digit value of a character, if it is a digit. -/
def charDigit (c : Char) : Option Nat :=
  let n := c.toNat
  if 48 ≤ n && n ≤ 57 then some (n - 48) else none

/-- Accumulate a decimal number over a character list. -/
def parseIndexGo : List Char → Nat → Option Nat
  | [], acc => some acc
  | c :: rest, acc =>
      match charDigit c with
      | some d => parseIndexGo rest (acc * 10 + d)
      | none => none

/-- Parse a path segment as a non-negative integer array index (spec §4.2). -/
def parseIndex (s : String) : Option Nat :=
  match s.data with
  | [] => none
  | cs => parseIndexGo cs 0

mutual

def resolveV : Value → List String → Bool → Value × Nat
  | v, [], _ => (v, 0)
  | .obj fs, seg :: rest, _ => resolveFields fs seg rest
  | .arr vs, seg :: rest, block =>
      match parseIndex seg with
      | some i => resolveIndex vs i rest
      | none =>
          if block then (.arr vs, 0)
          else
            let r := resolveFan vs seg rest
            (.arr r.1, 1 + r.2)
  | _, _ :: _, _ => (.missing, 0)

def resolveFields : VFields → String → List String → Value × Nat
  | .nil, _, _ => (.missing, 0)
  | .cons k v tail, seg, rest =>
      if k = seg then resolveV v rest false else resolveFields tail seg rest

def resolveIndex : VList → Nat → List String → Value × Nat
  | .nil, _, _ => (.missing, 0)
  | .cons v _, 0, rest => resolveV v rest false
  | .cons _ tail, i + 1, rest => resolveIndex tail i rest

def resolveFan : VList → String → List String → VList × Nat
  | .nil, _, _ => (.nil, 0)
  | .cons v tail, seg, rest =>
      let r := resolveV v (seg :: rest) true
      let rs := resolveFan tail seg rest
      (if r.1.isMissing then rs.1 else .cons r.1 rs.1, r.2 + rs.2)

end

/-- Strip up to `d` single-element array layers (the post-resolution unwrap
applied at the match interface; `d` is the fan-out count). -/
def unwrapN : Nat → Value → Value
  | 0, v => v
  | d + 1, .arr (.cons x .nil) => unwrapN d x
  | _ + 1, v => v

/-- Modelled from the spec: the match-mode view of a path — resolve with
fan-out, then unwrap as many single-element layers as fan-outs occurred. -/
def resolvePath (doc : Value) (path : List String) : Value :=
  let r := resolveV doc path false
  unwrapN r.2 r.1

/-- Append two value lists. -/
def VList.append : VList → VList → VList
  | .nil, ws => ws
  | .cons v vs, ws => .cons v (VList.append vs ws)

/-- Splice one layer of nested arrays. -/
def flattenOnce : VList → VList
  | .nil => .nil
  | .cons (.arr xs) tail => VList.append xs (flattenOnce tail)
  | .cons v tail => .cons v (flattenOnce tail)

/-- Splice up to `d` layers of nested arrays. -/
def flattenN : Nat → VList → VList
  | 0, vs => vs
  | d + 1, vs => flattenN d (flattenOnce vs)

/-- Does any element of the list equal the target? -/
def anyBeq : VList → Value → Bool
  | .nil, _ => false
  | .cons v tail, t => Value.beq v t || anyBeq tail t

/-! ## Match-mode predicates (spec §4.5)

`{ path: value }` applies `$eq` to the resolved value: it succeeds when the
resolved value equals the target, when both are nil (this is how
`{ f: null }` matches an absent field), or when the resolved value is an
array one of whose elements — directly, or after splicing up to
`segments − 1` nested layers left over from fan-out — equals the target. -/

/-- Modelled from the spec: the `$eq` match predicate at a path. -/
def eqMatchQ (doc : Value) (path : List String) (target : Value) : Bool :=
  let lhs := resolvePath doc path
  Value.beq lhs target
    || (lhs.isNil && target.isNil)
    || match lhs with
       | .arr vs =>
           anyBeq vs target || anyBeq (flattenN (max 1 (path.length - 1)) vs) target
       | _ => false

/-- The type name of a value, as used by `$type` (spec §4.5). -/
def typeName : Value → String
  | .null => "null"
  | .bool _ => "bool"
  | .num _ => "number"
  | .str _ => "string"
  | .arr _ => "array"
  | .obj _ => "object"
  | .missing => "missing"

/-- Modelled from the spec: the `$type` match predicate — the resolved
value's type name must equal the requested name ("boolean" is accepted as an
alias of "bool"); a Missing resolution matches no type. -/
def typeQ (doc : Value) (path : List String) (t : String) : Bool :=
  let lhs := resolvePath doc path
  typeName lhs == t || (t == "boolean" && typeName lhs == "bool")

/-- Modelled from the spec: the `$exists` match predicate — true iff the
path resolves to non-Missing; a false argument inverts the test. -/
def existsQ (doc : Value) (path : List String) (b : Bool) : Bool :=
  (!(resolvePath doc path).isMissing) == b

/-- Shorthand for array literals. -/
def mkArr (vs : List Value) : Value := .arr (VList.ofList vs)

/-- Shorthand for object literals. -/
def mkObj (fs : List (String × Value)) : Value := .obj (VFields.ofList fs)

/-! Concrete documents from the test suite. -/

/-- The first document of `describe('null or missing fields')`:
`{ _id: 1, item: null }`, wrapped as job data. -/
def nullDocA : Value := mkObj [("data", mkObj [("_id", .num (qi 1)), ("item", .null)])]

/-- The second document of `describe('null or missing fields')`:
`{ _id: 2 }` (no `item` field), wrapped as job data. -/
def nullDocB : Value := mkObj [("data", mkObj [("_id", .num (qi 2))])]

/-- The deeply nested document of `describe('selector tests')`
(`src/tests/test_job_search.ts`). -/
def selectorDoc : Value :=
  mkObj [("data", mkObj [("key0", mkArr [
    mkObj [
      ("key1", mkArr [
        mkArr [mkArr [mkObj [("key2", mkArr [
          mkObj [("a", .str "value2")],
          mkObj [("a", .str "dummy")],
          mkObj [("b", .num (qi 20))]])]]],
        mkObj [("key2", .str "value")]]),
      ("key1a", mkObj [("key2a", .str "value2a")])]])])]

/-- The document of `it('should match nested array of objects without
indices')`: `{ key0: [{ key1: ['value'] }, { key1: ['value1'] }] }`. -/
def nestedKeyDoc : Value :=
  mkObj [("data", mkObj [("key0", mkArr [
    mkObj [("key1", mkArr [.str "value"])],
    mkObj [("key1", mkArr [.str "value1"])]])])]

/-- The resolver model reproduces every outcome of the repository's
selector-test block and the null-or-missing block: each conjunct is one
`it(...)` case from `src/tests/test_job_search.ts`. -/
theorem selector_tests_pass :
    eqMatchQ selectorDoc ["data", "key0", "key1", "key2", "a"] (.str "value2") = false
    ∧ eqMatchQ selectorDoc ["data", "key0", "key1", "0", "key2", "a"] (.str "value2") = false
    ∧ eqMatchQ selectorDoc ["data", "key0", "key1", "0", "0", "key2", "a"] (.str "value2") = true
    ∧ eqMatchQ selectorDoc ["data", "key0", "key1", "0", "0", "key2"]
        (mkObj [("b", .num (qi 20))]) = true
    ∧ eqMatchQ selectorDoc ["data", "key0", "key1", "1", "key2"] (.str "value") = true
    ∧ eqMatchQ selectorDoc ["data", "key0", "key1", "key2"] (.str "value") = true
    ∧ eqMatchQ nestedKeyDoc ["data", "key0", "key1"] (.str "value") = true
    ∧ eqMatchQ nullDocA ["data", "item"] .null = true
    ∧ eqMatchQ nullDocB ["data", "item"] .null = true
    ∧ typeQ nullDocA ["data", "item"] "null" = true
    ∧ typeQ nullDocB ["data", "item"] "null" = false
    ∧ existsQ nullDocA ["data", "item"] false = false
    ∧ existsQ nullDocB ["data", "item"] false = true := by
  refine ⟨?_, ?_, ?_, ?_, ?_, ?_, ?_, ?_, ?_, ?_, ?_, ?_, ?_⟩ <;> rfl

/-! ## Claim C1 — Missing vs Null at the match interface -/

theorem eqMatch_null_of_nil (d : Value) (f : List String)
    (h : resolvePath d f = .null ∨ resolvePath d f = .missing) :
    eqMatchQ d f .null = true := by
  rcases h with h | h <;> simp [eqMatchQ, h, Value.beq, Value.isNil]

theorem typeQ_null_iff (d : Value) (f : List String) :
    typeQ d f "null" = true ↔ resolvePath d f = .null := by
  unfold typeQ
  cases h : resolvePath d f <;> simp [h, typeName]

theorem existsQ_false_iff (d : Value) (f : List String) :
    existsQ d f false = true ↔ resolvePath d f = .missing := by
  unfold existsQ
  cases h : resolvePath d f <;> simp [h, Value.isMissing]

/-- C1. Missing and null are distinguished at the match interface: for every
document and path, `{ f: null }` matches when `f` resolves to a present null
and also when `f` is absent; `{ f: { $type: "null" } }` matches exactly the
present-and-null resolutions; `{ f: { $exists: false } }` matches exactly the
absent ones.  The final conjuncts instantiate this on the two documents of
`describe('null or missing fields')` with the outcomes the tests demand. -/
theorem claim1_null_vs_missing :
    (∀ (d : Value) (f : List String),
        resolvePath d f = .null ∨ resolvePath d f = .missing →
        eqMatchQ d f .null = true)
    ∧ (∀ (d : Value) (f : List String),
        typeQ d f "null" = true ↔ resolvePath d f = .null)
    ∧ (∀ (d : Value) (f : List String),
        existsQ d f false = true ↔ resolvePath d f = .missing)
    ∧ eqMatchQ nullDocA ["data", "item"] .null = true
    ∧ eqMatchQ nullDocB ["data", "item"] .null = true
    ∧ typeQ nullDocA ["data", "item"] "null" = true
    ∧ typeQ nullDocB ["data", "item"] "null" = false
    ∧ existsQ nullDocA ["data", "item"] false = false
    ∧ existsQ nullDocB ["data", "item"] false = true :=
  ⟨eqMatch_null_of_nil, typeQ_null_iff, existsQ_false_iff,
   rfl, rfl, rfl, rfl, rfl, rfl⟩

/-- Witness for C1: the general null-match part applied to the concrete
absent-field document of the test suite. -/
theorem claim1_null_vs_missing_witness :
    eqMatchQ nullDocB ["data", "item"] .null = true :=
  claim1_null_vs_missing.1 nullDocB ["data", "item"] (Or.inr rfl)

/-! ## Claim C2 — implicit array fan-out -/

theorem VList.ofList_toList : ∀ vs : VList, VList.ofList vs.toList = vs
  | .nil => rfl
  | .cons v tail => by simp [VList.toList, VList.ofList, VList.ofList_toList tail]

/-- The fan-out step collects exactly the non-Missing elementwise resolutions
of the remaining path, in element order (spec §4.2). -/
theorem resolveFan_toList : ∀ (vs : VList) (seg : String) (rest : List String),
    (resolveFan vs seg rest).1.toList =
      (vs.toList.map (fun e => (resolveV e (seg :: rest) true).1)).filter
        (fun v => !v.isMissing)
  | .nil, _, _ => rfl
  | .cons v tail, seg, rest => by
      simp only [resolveFan, VList.toList, List.map_cons, List.filter_cons]
      cases h : (resolveV v (seg :: rest) true).1.isMissing <;>
        simp [h, VList.toList, resolveFan_toList tail seg rest]

theorem resolveV_nil (v : Value) (b : Bool) : resolveV v [] b = (v, 0) := by
  cases v <;> rfl

theorem resolveFields_append (s : String) (p q : List String)
    (main : ∀ (v w : Value), resolveV v p false = (w, 0) → w ≠ .missing →
      resolveV v (p ++ q) false = resolveV w q false) :
    ∀ (fs : VFields) (w : Value), resolveFields fs s p = (w, 0) → w ≠ .missing →
      resolveFields fs s (p ++ q) = resolveV w q false
  | .nil, w, h, hw => by
      have : Value.missing = w := congrArg Prod.fst h
      exact absurd this.symm hw
  | .cons k v tail, w, h, hw => by
      by_cases hk : k = s
      · rw [resolveFields, if_pos hk] at h ⊢
        exact main v w h hw
      · rw [resolveFields, if_neg hk] at h ⊢
        exact resolveFields_append s p q main tail w h hw

theorem resolveIndex_append (p q : List String)
    (main : ∀ (v w : Value), resolveV v p false = (w, 0) → w ≠ .missing →
      resolveV v (p ++ q) false = resolveV w q false) :
    ∀ (vs : VList) (i : Nat) (w : Value), resolveIndex vs i p = (w, 0) →
      w ≠ .missing → resolveIndex vs i (p ++ q) = resolveV w q false
  | .nil, _, w, h, hw => by
      have : Value.missing = w := congrArg Prod.fst h
      exact absurd this.symm hw
  | .cons v _, 0, w, h, hw => by
      rw [resolveIndex] at h ⊢
      exact main v w h hw
  | .cons v tail, i + 1, w, h, hw => by
      rw [resolveIndex] at h ⊢
      exact resolveIndex_append p q main tail i w h hw

/-- A path prefix resolved without any fan-out composes: appending further
segments continues the walk from the prefix's result. -/
theorem resolve_append_depth0 : ∀ (p : List String) (d : Value) (q : List String)
    (w : Value), resolveV d p false = (w, 0) → w ≠ .missing →
    resolveV d (p ++ q) false = resolveV w q false
  | [], d, q, w, h, hw => by
      rw [resolveV_nil] at h
      have : d = w := congrArg Prod.fst h
      subst this
      simp
  | s :: p', d, q, w, h, hw => by
      cases d with
      | obj fs =>
          rw [List.cons_append]
          rw [resolveV] at h ⊢
          exact resolveFields_append s p' q
            (fun v w h hw => resolve_append_depth0 p' v q w h hw) fs w h hw
      | arr vs =>
          rw [List.cons_append]
          rw [resolveV] at h ⊢
          cases hseg : parseIndex s with
          | some i =>
              rw [hseg] at h
              exact resolveIndex_append p' q
                (fun v w h hw => resolve_append_depth0 p' v q w h hw) vs i w h hw
          | none =>
              rw [hseg] at h
              have h2 : (1 : Nat) + (resolveFan vs s p').2 = 0 := congrArg Prod.snd h
              omega
      | null =>
          have : Value.missing = w := congrArg Prod.fst h
          exact absurd this.symm hw
      | bool b =>
          have : Value.missing = w := congrArg Prod.fst h
          exact absurd this.symm hw
      | num n =>
          have : Value.missing = w := congrArg Prod.fst h
          exact absurd this.symm hw
      | str s2 =>
          have : Value.missing = w := congrArg Prod.fst h
          exact absurd this.symm hw
      | missing =>
          have : Value.missing = w := congrArg Prod.fst h
          exact absurd this.symm hw

theorem fields_single_depth (k : String) : ∀ fs : VFields,
    (resolveFields fs k []).2 = 0
  | .nil => rfl
  | .cons k2 v tail => by
      by_cases hk : k2 = k
      · rw [resolveFields, if_pos hk, resolveV_nil]
      · rw [resolveFields, if_neg hk]; exact fields_single_depth k tail

theorem elem_single_depth (k : String) (hk : parseIndex k = none) :
    ∀ e : Value, (resolveV e [k] true).2 = 0
  | .null => rfl
  | .bool _ => rfl
  | .num _ => rfl
  | .str _ => rfl
  | .missing => rfl
  | .obj fs => fields_single_depth k fs
  | .arr vs => by rw [resolveV, hk]; rfl

theorem fan_single_depth (k : String) (hk : parseIndex k = none) :
    ∀ vs : VList, (resolveFan vs k []).2 = 0
  | .nil => rfl
  | .cons v tail => by
      rw [resolveFan]
      simp [elem_single_depth k hk v, fan_single_depth k hk tail]

theorem fields_lookup_resolve (k : String) : ∀ (fs : VFields) (v : Value),
    fs.lookup k = some v → resolveFields fs k [] = (v, 0)
  | .nil, v, h => by simp [VFields.lookup] at h
  | .cons k2 w tail, v, h => by
      by_cases hk : k2 = k
      · rw [VFields.lookup, if_pos hk] at h
        rw [resolveFields, if_pos hk]
        cases h
        exact resolveV_nil w false
      · rw [VFields.lookup, if_neg hk] at h
        rw [resolveFields, if_neg hk]
        exact fields_lookup_resolve k tail v h

theorem isMissing_false_of_ne {v : Value} (hv : v ≠ .missing) :
    v.isMissing = false := by
  cases v <;> first | rfl | exact absurd rfl hv

theorem fan_single_mem (k : String) :
    ∀ (vs : VList) (fl : VFields) (v : Value), Value.obj fl ∈ vs.toList →
      fl.lookup k = some v → v ≠ .missing → v ∈ (resolveFan vs k []).1.toList
  | .nil, _, _, hmem, _, _ => by simp [VList.toList] at hmem
  | .cons w tail, fl, v, hmem, hl, hv => by
      rw [VList.toList, List.mem_cons] at hmem
      rw [resolveFan]
      rcases hmem with hmem | hmem
      · subst hmem
        rw [resolveV, fields_lookup_resolve k fl v hl]
        simp [isMissing_false_of_ne hv, VList.toList]
      · have ih := fan_single_mem k tail fl v hmem hl hv
        cases hmiss : (resolveV w [k] true).1.isMissing <;>
          simp [hmiss, VList.toList, ih]

theorem anyBeq_of_mem : ∀ (vs : VList) (v : Value), v ∈ vs.toList →
    anyBeq vs v = true
  | .nil, _, hmem => by simp [VList.toList] at hmem
  | .cons w tail, v, hmem => by
      rw [VList.toList, List.mem_cons] at hmem
      rw [anyBeq]
      rcases hmem with rfl | hmem
      · simp [Value.beq_refl]
      · simp [anyBeq_of_mem tail v hmem]

theorem eqMatchQ_def (d : Value) (path : List String) (t : Value) :
    eqMatchQ d path t =
      (Value.beq (resolvePath d path) t
        || ((resolvePath d path).isNil && t.isNil)
        || match resolvePath d path with
           | .arr vs =>
               anyBeq vs t || anyBeq (flattenN (max 1 (path.length - 1)) vs) t
           | _ => false) := rfl

/-- General fan-out consequence: if a path prefix reaches an array without
fan-out and one of its object elements carries field `k` with value `v`, then
the match-mode query `{ "p.k": v }` succeeds. -/
theorem fanout_match_general : ∀ (d : Value) (p : List String) (vs : VList)
    (k : String) (fl : VFields) (v : Value),
    resolveV d p false = (.arr vs, 0) → parseIndex k = none →
    Value.obj fl ∈ vs.toList → fl.lookup k = some v → v ≠ .missing →
    eqMatchQ d (p ++ [k]) v = true := by
  intro d p vs k fl v hres hk hmem hlook hv
  have hcomp := resolve_append_depth0 p d [k] (.arr vs) hres
    (fun hh => Value.noConfusion hh)
  have hfan : resolveV (Value.arr vs) [k] false =
      (.arr (resolveFan vs k []).1, 1) := by
    rw [resolveV, hk]
    simp [fan_single_depth k hk vs]
  have hmem2 := fan_single_mem k vs fl v hmem hlook hv
  have hrp : resolvePath d (p ++ [k]) =
      unwrapN 1 (.arr (resolveFan vs k []).1) := by
    show unwrapN (resolveV d (p ++ [k]) false).2 (resolveV d (p ++ [k]) false).1 = _
    rw [hcomp, hfan]
  rw [eqMatchQ_def, hrp]
  cases hc : (resolveFan vs k []).1 with
  | nil => rw [hc] at hmem2; simp [VList.toList] at hmem2
  | cons x xs =>
      rw [hc] at hmem2
      cases xs with
      | nil =>
          rw [VList.toList, VList.toList, List.mem_singleton] at hmem2
          subst hmem2
          simp [unwrapN, Value.beq_refl]
      | cons y ys =>
          have hu : unwrapN 1 (Value.arr (.cons x (.cons y ys))) =
              .arr (.cons x (.cons y ys)) := rfl
          rw [hu]
          simp [anyBeq_of_mem _ v hmem2]

/-- C2. Implicit array fan-out: (1) when a segment is not a non-negative
integer and the current value is an array, the resolver resolves the
remaining path against every element and collects the non-Missing results in
element order into a new array; (2) consequently `{ "p.k": v }` matches any
document holding at `p` an array one of whose object elements has `k = v`;
(3) on the nested selector document, the fully indexed path
`data.key0.key1.0.0.key2.a` matches `'value2'` while the index-free
`data.key0.key1.key2.a` (insufficient fan-out depth) does not — exactly the
outcomes of `describe('selector tests')`. -/
theorem claim2_fanout :
    (∀ (vs : VList) (seg : String) (rest : List String), parseIndex seg = none →
        (resolveV (.arr vs) (seg :: rest) false).1 =
          mkArr ((vs.toList.map (fun e => (resolveV e (seg :: rest) true).1)).filter
            (fun v => !v.isMissing)))
    ∧ (∀ (d : Value) (p : List String) (vs : VList) (k : String) (fl : VFields)
        (v : Value),
        resolveV d p false = (.arr vs, 0) → parseIndex k = none →
        Value.obj fl ∈ vs.toList → fl.lookup k = some v → v ≠ .missing →
        eqMatchQ d (p ++ [k]) v = true)
    ∧ eqMatchQ selectorDoc ["data", "key0", "key1", "0", "0", "key2", "a"]
        (.str "value2") = true
    ∧ eqMatchQ selectorDoc ["data", "key0", "key1", "key2", "a"]
        (.str "value2") = false := by
  refine ⟨?_, fanout_match_general, rfl, rfl⟩
  intro vs seg rest h
  have h1 : (resolveV (.arr vs) (seg :: rest) false).1 =
      .arr (resolveFan vs seg rest).1 := by
    rw [resolveV, h]
    rfl
  rw [h1, mkArr]
  rw [← VList.ofList_toList (resolveFan vs seg rest).1, resolveFan_toList]

/-- The first document of the Person `grades` array. -/
def gradesF1 : VFields :=
  VFields.ofList [("grade", .num (qi 92)), ("mean", .num (qi 88)), ("std", .num (qi 8))]

/-- The Person `grades` array (`src/tests/test_job_search.ts`). -/
def gradesArr : VList :=
  VList.ofList [Value.obj gradesF1,
    mkObj [("grade", .num (qi 78)), ("mean", .num (qi 90)), ("std", .num (qi 5))],
    mkObj [("grade", .num (qi 88)), ("mean", .num (qi 85)), ("std", .num (qi 3))]]

/-- A job document holding the Person grades array under `data.grades`. -/
def gradesDoc : Value := mkObj [("data", mkObj [("grades", .arr gradesArr)])]

/-- Witness for C2: the general fan-out part applied to the Person grades
array — `{ "data.grades.mean": 88 }` matches because the first element's
`mean` is 88. -/
theorem claim2_fanout_witness :
    eqMatchQ gradesDoc ["data", "grades", "mean"] (.num (qi 88)) = true :=
  claim2_fanout.2.1 gradesDoc ["data", "grades"] gradesArr "mean" gradesF1
    (.num (qi 88)) rfl rfl (List.mem_cons_self _ _) rfl (fun h => Value.noConfusion h)

/-! ## Arithmetic (spec §4.5)

Rational arithmetic on `Qv` (plain integer formulas; denominators stay
positive by construction).  `Int.ediv`/`Int.emod` coincide with
floor-division and a non-negative remainder for the positive divisors used
here. -/

/-- The (positive) denominator of a `Qv`, as a natural number. -/
def denN (q : Qv) : Nat := q.dp + 1

/-- Rational negation. -/
def qneg (a : Qv) : Qv := ⟨-a.n, a.dp⟩

/-- Rational addition. -/
def qadd (a b : Qv) : Qv := qv (a.n * denZ b + b.n * denZ a) (denN a * denN b)

/-- Rational subtraction. -/
def qsub (a b : Qv) : Qv := qadd a (qneg b)

/-- Rational multiplication. -/
def qmul (a b : Qv) : Qv := qv (a.n * b.n) (denN a * denN b)

/-- Rational division; division by zero yields 0 here (no claim and no test
exercises it — spec §7 leaves its treatment to the implementation). -/
def qdiv (a b : Qv) : Qv :=
  if b.n = 0 then qi 0
  else if 0 < b.n then qv (a.n * denZ b) (denN a * b.n.toNat)
  else qv (-(a.n * denZ b)) (denN a * (-b.n).toNat)

/-- Floor of a rational, as an integer. -/
def qfloorZ (q : Qv) : Int := q.n / denZ q

/-- Ceiling of a rational, as an integer. -/
def qceilZ (q : Qv) : Int := -((-q.n) / denZ q)

/-- Truncation of a rational toward zero, as an integer. -/
def qtruncZ (q : Qv) : Int := if 0 ≤ q.n then qfloorZ q else -(qfloorZ (qneg q))

/-- Absolute value. -/
def qabs (a : Qv) : Qv := ⟨|a.n|, a.dp⟩

/-- Remainder with truncated division, as in the reference runtime's `%`. -/
def qmodv (a b : Qv) : Qv := qsub a (qmul b (qi (qtruncZ (qdiv a b))))

/-- Modelled from the spec: the engine's shared truncate/round helper behind
`$trunc` (`roundOff = false`) and `$round` (`roundOff = true`).  The spec's
§4.5 prose calls `$round` "banker's rounding (half-to-even) at the given
decimal place", but the repository's test tables
(`describe('$round')`/`describe('$trunc')`, `src/tests/test_job_search.ts`)
pin a different algorithm, reconstructed here and verified below against all
16 `$round` rows and all 13 numeric `$trunc` rows: work on `|x|` split into
integer part and fractional remainder; at place 0 increment the truncation
when it is odd and the first fractional digit is ≥ 5 (this agrees with
half-to-even exactly on ties); at positive places keep `place` fractional
digits and increment only when the next digit exceeds 5; at negative places
clear the last digits, then for negative inputs add one place unit when the
cleared remainder exceeds half a unit; finally restore the sign. -/
def truncAt (x : Qv) (place : Int) (roundOff : Bool) : Qv :=
  let d : Int := denZ x
  let a : Int := |x.n|
  let neg : Bool := decide (x.n < 0)
  let result : Int := a / d
  let rem : Int := a % d
  if place = 0 then
    let firstDigit : Int := (10 * rem) / d
    let res2 : Int :=
      if roundOff = true ∧ result % 2 = 1 ∧ 5 ≤ firstDigit then result + 1
      else result
    qi (if neg then -res2 else res2)
  else if 0 < place then
    let offset : Int := 10 ^ place.toNat
    let remainder : Int := (rem * offset) / d
    let lastDigit : Int := ((rem * offset * 10) / d) % 10
    let remainder2 : Int :=
      if roundOff = true ∧ 5 < lastDigit then remainder + 1 else remainder
    let v : Int := result * offset + remainder2
    qv (if neg then -v else v) offset.toNat
  else
    let offset : Int := 10 ^ (-place).toNat
    let excess : Int := result % offset
    let base : Int := max 0 (result - excess)
    let base2 : Int :=
      if roundOff = true ∧ neg = true ∧ offset * d < 2 * (a % (offset * d))
      then base + offset else base
    qi (if neg then -base2 else base2)

/-- Round-half-to-even of the fraction `num / den` (`den > 0`) to an
integer. -/
def roundHalfEvenInt (num den : Int) : Int :=
  let f := num / den
  let r := num % den
  if 2 * r < den then f
  else if den < 2 * r then f + 1
  else if f % 2 = 0 then f else f + 1

/-- The claim's wording of `$round`: half-to-even rounding of `x` at decimal
place `place` (a negative place rounds at tens, hundreds, …).  Stated for
comparison with the engine's `truncAt`; the two disagree (see the C3
counterexample). -/
def halfEvenAt (x : Qv) (place : Int) : Qv :=
  if 0 ≤ place then
    let m : Int := 10 ^ place.toNat
    qv (roundHalfEvenInt (x.n * m) (denZ x)) m.toNat
  else
    let m : Int := 10 ^ (-place).toNat
    qi (roundHalfEvenInt x.n (denZ x * m) * m)

/-- The numeric argument of a value, if it is a number. -/
def numOf : Value → Option Qv
  | .num q => some q
  | _ => none

/-- Modelled from the spec: a unary arithmetic operator propagates null
(spec §4.5); non-numeric operands raise eval-time errors outside every claim
and are modelled as null. -/
def arith1 (f : Qv → Qv) : Value → Value
  | .null => .null
  | .missing => .null
  | .num q => .num (f q)
  | _ => .null

/-- Modelled from the spec: a binary arithmetic operator propagates null
(spec §4.5). -/
def arith2 (f : Qv → Qv → Qv) : Value → Value → Value
  | .null, _ => .null
  | _, .null => .null
  | .num a, .num b => .num (f a b)
  | _, _ => .null

/-- `$add`. -/
def addOp : Value → Value → Value := arith2 qadd

/-- `$subtract`. -/
def subOp : Value → Value → Value := arith2 qsub

/-- `$multiply`. -/
def mulOp : Value → Value → Value := arith2 qmul

/-- `$divide`. -/
def divOp : Value → Value → Value := arith2 qdiv

/-- `$mod` (expression form). -/
def modOp : Value → Value → Value := arith2 qmodv

/-- `$abs`. -/
def absOp : Value → Value := arith1 qabs

/-- `$ceil`. -/
def ceilOp : Value → Value := arith1 (fun q => qi (qceilZ q))

/-- `$floor`. -/
def floorOp : Value → Value := arith1 (fun q => qi (qfloorZ q))

/-- Modelled from the spec: `$sqrt` is null for null — the only branch any
claim exercises; exact f64 square roots are outside the rational model, so
the numeric branch carries an integer-square-root approximation of
`sqrt(n·d)/d`. -/
def sqrtOp : Value → Value :=
  arith1 (fun q => qv (Int.ofNat (Nat.sqrt ((q.n.toNat) * denN q))) (denN q))

/-- `$round`: null-propagating wrapper around `truncAt · · true`. -/
def roundOp : Value → Value → Value :=
  arith2 (fun x p => truncAt x (qtruncZ p) true)

/-- `$trunc`: null-propagating wrapper around `truncAt · · false`. -/
def truncOp : Value → Value → Value :=
  arith2 (fun x p => truncAt x (qtruncZ p) false)

/-- The 16 rows of `describe('$round')` (`src/tests/test_job_search.ts`,
input, place, expected). -/
def roundCases : List ((Qv × Int) × Qv) :=
  [((qv 105 10, 0), qi 10), ((qv 115 10, 0), qi 12),
   ((qv 125 10, 0), qi 12), ((qv 135 10, 0), qi 14),
   ((qv 1925 100, 1), qv 192 10), ((qv 2873 100, 1), qv 287 10),
   ((qv 3432 100, 1), qv 343 10), ((qv (-4539) 100, 1), qv (-454) 10),
   ((qv 1925 100, -1), qi 10), ((qv 2873 100, -1), qi 20),
   ((qv 3432 100, -1), qi 30), ((qv (-4539) 100, -1), qi (-50)),
   ((qv 1925 100, 0), qi 19), ((qv 2873 100, 0), qi 28),
   ((qv 3432 100, 0), qi 34), ((qv (-4539) 100, 0), qi (-45))]

/-- The 13 numeric rows of `describe('$trunc')` (the null row is checked at
the operator level). -/
def truncCases : List ((Qv × Int) × Qv) :=
  [((qi 0, 0), qi 0),
   ((qv 1925 100, 1), qv 192 10), ((qv 2873 100, 1), qv 287 10),
   ((qv 3432 100, 1), qv 343 10), ((qv (-4539) 100, 1), qv (-453) 10),
   ((qv 1925 100, -1), qi 10), ((qv 2873 100, -1), qi 20),
   ((qv 3432 100, -1), qi 30), ((qv (-4539) 100, -1), qi (-40)),
   ((qv 1925 100, 0), qi 19), ((qv 2873 100, 0), qi 28),
   ((qv 3432 100, 0), qi 34), ((qv (-4539) 100, 0), qi (-45))]

/-- C3 counterexample.  The claim asserts both that `$round` is half-to-even
at the given place and that `$round [19.25, -1] = 10`; half-to-even at place
−1 gives 20 there, and the engine (per the repository's `$round` table)
returns 10, so the half-to-even characterisation is false.  The place-0 row
`$round [28.73, 0] = 28` equally contradicts half-to-even (which gives 29). -/
theorem claim3_round_counterexample :
    truncAt (qv 1925 100) (-1) true = qi 10
    ∧ halfEvenAt (qv 1925 100) (-1) = qi 20
    ∧ qeqb (qi 10) (qi 20) = false
    ∧ truncAt (qv 2873 100) 0 true = qi 28
    ∧ halfEvenAt (qv 2873 100) 0 = qi 29
    ∧ qeqb (qi 28) (qi 29) = false := by
  refine ⟨?_, ?_, ?_, ?_, ?_, ?_⟩ <;> decide

/-- C3 amended.  `$round` reproduces the repository's full `$round` table and
shares its helper with `$trunc` (whose full table is also reproduced); at
place 0 it agrees with half-to-even on every exact half `k + 1/2` (the tie
law below), but it is not half-to-even at non-tie inputs or at negative
places — there positive values are truncated down and negative values
rounded by their remainder; in particular the claim's listed values hold:
`$round [10.5,0] = 10`, `[11.5,0] = 12`, `[12.5,0] = 12`,
`[-45.39,1] = -45.4`, and `[19.25,-1] = 10`. -/
theorem claim3_round_amended :
    roundCases.all (fun c => qeqb (truncAt c.1.1 c.1.2 true) c.2) = true
    ∧ truncCases.all (fun c => qeqb (truncAt c.1.1 c.1.2 false) c.2) = true
    ∧ (∀ k : Int, 0 ≤ k →
        truncAt ⟨2 * k + 1, 1⟩ 0 true =
          if k % 2 = 0 then qi k else qi (k + 1))
    ∧ roundOp (.num (qv 105 10)) (.num (qi 0)) = .num (qi 10)
    ∧ roundOp (.num (qv 115 10)) (.num (qi 0)) = .num (qi 12)
    ∧ roundOp (.num (qv 125 10)) (.num (qi 0)) = .num (qi 12)
    ∧ Value.beq (roundOp (.num (qv (-4539) 100)) (.num (qi 1)))
        (.num (qv (-454) 10)) = true
    ∧ Value.beq (roundOp (.num (qv 1925 100)) (.num (qi (-1)))) (.num (qi 10)) = true := by
  refine ⟨by decide, by decide, ?_, rfl, rfl, rfl, by decide, by decide⟩
  intro k hk
  have habs : |2 * k + 1| = 2 * k + 1 := abs_of_nonneg (by omega)
  have hneg : decide (2 * k + 1 < (0 : Int)) = false := by
    simp only [decide_eq_false_iff_not]
    omega
  simp only [truncAt, denZ, qi, habs, hneg, Bool.false_eq_true, if_false]
  norm_num
  split_ifs <;> simp only [Qv.mk.injEq, and_true] <;> omega

/-- Witness for C3's amended tie law at `k = 3`: `$round [3.5, 0] = 4`. -/
theorem claim3_round_amended_witness : truncAt ⟨7, 1⟩ 0 true = qi 4 :=
  (claim3_round_amended.2.2.1 3 (by decide)).trans (by decide)

/-! ## Claim C4 — `$toBool` vs `$toBoolEx` -/

/-- Modelled from the spec: `$toBool` — any string (including `"false"` and
`""`) and any other non-zero, non-false value convert to true; the number 0
and `false` convert to false (spec §4.5, preserved "reference ambiguity" of
§9). -/
def toBoolOp : Value → Value
  | .num q => .bool (!qeqb q (qi 0))
  | .bool b => .bool b
  | _ => .bool true

/-- Modelled from the spec: `$toBoolEx` — as `$toBool`, except that the
strings `"false"` and `""` additionally convert to false. -/
def toBoolExOp : Value → Value
  | .num q => .bool (!qeqb q (qi 0))
  | .bool b => .bool b
  | .str s => .bool (!(s == "false" || s == ""))
  | _ => .bool true

/-- The rows of `describe('$toBool')` (`src/tests/test_job_search.ts`). -/
def toBoolCases : List (Value × Value) :=
  [(.bool true, .bool true), (.num (qi 0), .bool false), (.num (qi 1), .bool true),
   (.str "true", .bool true), (.str "false", .bool true), (.str "", .bool true)]

/-- The rows of `describe('$toBoolEx')`. -/
def toBoolExCases : List (Value × Value) :=
  [(.bool true, .bool true), (.num (qi 0), .bool false), (.num (qi 1), .bool true),
   (.num (qv 25 100), .bool true), (.num (qi (-1)), .bool true),
   (.str "true", .bool true), (.str "false", .bool false), (.str "476", .bool true),
   (.str "gibberish", .bool true), (.str "", .bool false)]

/-- C4.  `$toBool` maps every string (including `"false"` and `""`) to true
and is false exactly on the number 0 and on `false`; `$toBoolEx` agrees with
`$toBool` on every input other than the strings `"false"` and `""`, which it
maps to false.  Both truth tables from the test suite are reproduced. -/
theorem claim4_toBool_vs_toBoolEx :
    (∀ s : String, toBoolOp (.str s) = .bool true)
    ∧ (∀ v : Value, toBoolOp v = .bool false ↔
        v = .bool false ∨ ∃ q, v = .num q ∧ qeqb q (qi 0) = true)
    ∧ (∀ v : Value, v ≠ .str "false" → v ≠ .str "" → toBoolExOp v = toBoolOp v)
    ∧ toBoolExOp (.str "false") = .bool false
    ∧ toBoolExOp (.str "") = .bool false
    ∧ toBoolOp (.str "false") = .bool true
    ∧ toBoolOp (.str "") = .bool true
    ∧ toBoolCases.all (fun c => Value.beq (toBoolOp c.1) c.2) = true
    ∧ toBoolExCases.all (fun c => Value.beq (toBoolExOp c.1) c.2) = true := by
  refine ⟨fun s => rfl, ?_, ?_, rfl, rfl, rfl, rfl, by decide, by decide⟩
  · intro v
    cases v with
    | num q =>
        simp only [toBoolOp]
        cases hq : qeqb q (qi 0) <;> simp [hq]
    | bool b => cases b <;> simp [toBoolOp]
    | null => simp [toBoolOp]
    | str s => simp [toBoolOp]
    | arr vs => simp [toBoolOp]
    | obj fs => simp [toBoolOp]
    | missing => simp [toBoolOp]
  · intro v h1 h2
    cases v with
    | str s =>
        simp only [toBoolExOp, toBoolOp]
        have hs1 : (s == "false") = false := by
          cases hb : s == "false"
          · rfl
          · exact absurd (congrArg Value.str (by simpa using hb)) h1
        have hs2 : (s == "") = false := by
          cases hb : s == ""
          · rfl
          · exact absurd (congrArg Value.str (by simpa using hb)) h2
        simp [hs1, hs2]
    | null => rfl
    | bool b => rfl
    | num q => rfl
    | arr vs => rfl
    | obj fs => rfl
    | missing => rfl

/-- Witness for C4: `$toBoolEx` agrees with `$toBool` on the string
`"476"`, where both are true. -/
theorem claim4_toBool_vs_toBoolEx_witness :
    toBoolExOp (.str "476") = toBoolOp (.str "476") :=
  claim4_toBool_vs_toBoolEx.2.2.1 (.str "476") (by simp) (by simp)

/-! ## Claims C5/C6 — canonical ordering, `$cmp`, `$min`/`$max`, null
propagation -/

/-- Modelled from the spec: the canonical cross-type rank
Null < Number < String < Object < Array < Bool (spec §4.1); Missing sorts
with Null. -/
def typeRank : Value → Nat
  | .null => 0
  | .missing => 0
  | .num _ => 1
  | .str _ => 2
  | .obj _ => 3
  | .arr _ => 4
  | .bool _ => 5

/-- Byte-wise lexicographic strict order on character lists. -/
def charsLt : List Char → List Char → Bool
  | [], [] => false
  | [], _ :: _ => true
  | _ :: _, [] => false
  | a :: as, b :: bs =>
      if a.toNat < b.toNat then true
      else if b.toNat < a.toNat then false
      else charsLt as bs

/-- Modelled from the spec: `$cmp` — compare by canonical rank across types;
within numbers numerically, within strings byte-wise lexicographically,
within booleans false < true (spec §4.1).  Element-wise array comparison and
within-object comparison are exercised by no claim or test and collapse to
equality here. -/
def cmpValue (a b : Value) : Int :=
  if typeRank a < typeRank b then -1
  else if typeRank b < typeRank a then 1
  else match a, b with
    | .num x, .num y => if qltb x y then -1 else if qltb y x then 1 else 0
    | .str x, .str y =>
        if charsLt x.data y.data then -1
        else if charsLt y.data x.data then 1 else 0
    | .bool x, .bool y => if x = y then 0 else if x = false then -1 else 1
    | _, _ => 0

/-- Binary numeric maximum. -/
def qmaxf (a b : Qv) : Qv := if qleb a b then b else a

/-- Binary numeric minimum. -/
def qminf (a b : Qv) : Qv := if qleb b a then b else a

/-- Modelled from the repository's `$max` test table: `$max` considers only
the numeric arguments — null and non-numeric values are skipped — and
returns their maximum, or null when no numeric argument exists (the spec's
§4.1 claim that `$max` ranks all arguments in the canonical cross-type order
is contradicted by `describe('$max')`: `$max [-1, null, '13', 4] = 4`). -/
def maxOp (vs : List Value) : Value :=
  match vs.filterMap numOf with
  | [] => .null
  | q :: qs => .num (qs.foldl qmaxf q)

/-- Modelled from the repository's `$min` test table, dually to `maxOp`. -/
def minOp (vs : List Value) : Value :=
  match vs.filterMap numOf with
  | [] => .null
  | q :: qs => .num (qs.foldl qminf q)

/-- `$max` over an evaluated argument (an array spreads its elements, any
other value is a one-element argument list, as in the test harness). -/
def maxEval : Value → Value
  | .arr vs => maxOp vs.toList
  | v => maxOp [v]

/-- `$min` over an evaluated argument. -/
def minEval : Value → Value
  | .arr vs => minOp vs.toList
  | v => minOp [v]

/-- True exactly on null. -/
def isNullB : Value → Bool
  | .null => true
  | _ => false

/-- The claim's wording of `$max`: skip the null arguments and take the
greatest of the remaining ones under the canonical ordering `cmpValue`.
Stated for comparison with `maxOp`; the two disagree (see the C6
counterexample). -/
def claimMax (vs : List Value) : Value :=
  match vs.filter (fun v => !isNullB v) with
  | [] => .null
  | v :: rest => rest.foldl (fun a b => if cmpValue a b < 0 then b else a) v

/-- The rows of `describe('$cmp')` (`qty` compared against 250;
`src/tests/test_job_search.ts`). -/
def cmpCases : List (Qv × Int) :=
  [(qi 300, 1), (qi 200, -1), (qi 250, 0), (qi 300, 1), (qi 180, -1)]

/-- The rows of `describe('$max')`. -/
def maxCases : List (Value × Value) :=
  [(.num (qi 1), .num (qi 1)),
   (mkArr [.null], .null),
   (mkArr [.num (qv 15 10), .num (qi 3)], .num (qi 3)),
   (mkArr [.num (qi (-1)), .null, .str "13", .num (qi 4)], .num (qi 4)),
   (mkArr [.num (qi 0), .num (qv 5 1000)], .num (qv 5 1000)),
   (mkArr [.num (qi (-67)), .num (qi 1)], .num (qi 1)),
   (mkArr [.num (qi 0), .num (qi 1), .num (qi 19), .num (qi (-45))], .num (qi 19))]

/-- The rows of `describe('$min')`. -/
def minCases : List (Value × Value) :=
  [(.num (qi 4), .num (qi 4)),
   (mkArr [.null], .null),
   (mkArr [.num (qv 15 10), .num (qi 3)], .num (qv 15 10)),
   (mkArr [.num (qi (-1)), .null, .str "-13", .num (qi 4)], .num (qi (-1))),
   (mkArr [.num (qi 0), .num (qv 5 1000)], .num (qi 0)),
   (mkArr [.num (qi (-20)), .num (qi 71)], .num (qi (-20))),
   (mkArr [.num (qi 0), .num (qi 1), .num (qi 3), .num (qi 19), .num (qi (-45))],
     .num (qi (-45)))]

/-- C5 counterexample.  The claim asserts that `$max` picks the greatest
argument under the canonical ordering, so a string argument such as `'13'`
(rank String > rank Number) would have to win; but on the test row
`$max [-1, null, '13', 4]` the engine returns 4, and `'13'` is strictly
greater than 4 under `$cmp`'s canonical ordering. -/
theorem claim5_counterexample :
    maxEval (mkArr [.num (qi (-1)), .null, .str "13", .num (qi 4)]) = .num (qi 4)
    ∧ cmpValue (.str "13") (.num (qi 4)) = 1 :=
  ⟨rfl, by decide⟩

/-- C6 counterexample.  The claim asserts `$max` skips nulls and returns the
extremum of the remaining arguments; on `[-1, null, '13', 4]` the remaining
arguments' extremum (under the engine's canonical ordering, spec §4.1) is
`'13'`, yet the engine returns 4. -/
theorem claim6_counterexample :
    maxOp [.num (qi (-1)), .null, .str "13", .num (qi 4)] = .num (qi 4)
    ∧ claimMax [.num (qi (-1)), .null, .str "13", .num (qi 4)] = .str "13"
    ∧ Value.num (qi 4) ≠ .str "13" :=
  ⟨rfl, rfl, fun h => Value.noConfusion h⟩

theorem denZ_pos (q : Qv) : 0 < denZ q := by
  simp only [denZ]
  omega

theorem qleb_refl (a : Qv) : qleb a a = true := by
  simp [qleb]

theorem qleb_total (a b : Qv) : qleb a b = true ∨ qleb b a = true := by
  simp only [qleb, decide_eq_true_eq]
  exact Int.le_total _ _

theorem qleb_trans {a b c : Qv} (h1 : qleb a b = true) (h2 : qleb b c = true) :
    qleb a c = true := by
  simp only [qleb, decide_eq_true_eq] at h1 h2 ⊢
  have da := denZ_pos a
  have db := denZ_pos b
  have dc := denZ_pos c
  nlinarith [mul_le_mul_of_nonneg_right h1 dc.le, mul_le_mul_of_nonneg_right h2 da.le]

theorem qleb_qmaxf_left (q b : Qv) : qleb q (qmaxf q b) = true := by
  unfold qmaxf
  by_cases h : qleb q b = true
  · simp [h]
  · simp [h, qleb_refl]

theorem qleb_qmaxf_right (q b : Qv) : qleb b (qmaxf q b) = true := by
  unfold qmaxf
  by_cases h : qleb q b = true
  · simp [h, qleb_refl]
  · rcases qleb_total q b with h2 | h2
    · exact absurd h2 h
    · simp [h, h2]

theorem qleb_qminf_left (q b : Qv) : qleb (qminf q b) q = true := by
  unfold qminf
  by_cases h : qleb b q = true
  · simp [h]
  · simp [h, qleb_refl]

theorem qleb_qminf_right (q b : Qv) : qleb (qminf q b) b = true := by
  unfold qminf
  by_cases h : qleb b q = true
  · simp [h, qleb_refl]
  · rcases qleb_total q b with h2 | h2
    · simp [h, h2]
    · exact absurd h2 h

theorem foldl_qmaxf_mem : ∀ (qs : List Qv) (q : Qv), qs.foldl qmaxf q ∈ q :: qs
  | [], q => by simp
  | b :: t, q => by
      rw [List.foldl_cons]
      have h := foldl_qmaxf_mem t (qmaxf q b)
      rw [List.mem_cons] at h
      rcases h with h | h
      · rw [h]
        unfold qmaxf
        split_ifs <;> simp
      · exact List.mem_cons_of_mem _ (List.mem_cons_of_mem _ h)

theorem foldl_qminf_mem : ∀ (qs : List Qv) (q : Qv), qs.foldl qminf q ∈ q :: qs
  | [], q => by simp
  | b :: t, q => by
      rw [List.foldl_cons]
      have h := foldl_qminf_mem t (qminf q b)
      rw [List.mem_cons] at h
      rcases h with h | h
      · rw [h]
        unfold qminf
        split_ifs <;> simp
      · exact List.mem_cons_of_mem _ (List.mem_cons_of_mem _ h)

theorem foldl_qmaxf_le : ∀ (qs : List Qv) (q r : Qv), r ∈ q :: qs →
    qleb r (qs.foldl qmaxf q) = true
  | [], q, r, h => by
      rw [List.mem_singleton] at h
      subst h
      exact qleb_refl r
  | b :: t, q, r, h => by
      rw [List.foldl_cons]
      have hhead : qleb (qmaxf q b) (t.foldl qmaxf (qmaxf q b)) = true :=
        foldl_qmaxf_le t (qmaxf q b) (qmaxf q b) (List.mem_cons_self _ _)
      rcases List.mem_cons.mp h with rfl | h2
      · exact qleb_trans (qleb_qmaxf_left r b) hhead
      · rcases List.mem_cons.mp h2 with rfl | h3
        · exact qleb_trans (qleb_qmaxf_right q r) hhead
        · exact foldl_qmaxf_le t (qmaxf q b) r (List.mem_cons_of_mem _ h3)

theorem foldl_qminf_le : ∀ (qs : List Qv) (q r : Qv), r ∈ q :: qs →
    qleb (qs.foldl qminf q) r = true
  | [], q, r, h => by
      rw [List.mem_singleton] at h
      subst h
      exact qleb_refl r
  | b :: t, q, r, h => by
      rw [List.foldl_cons]
      have hhead : qleb (t.foldl qminf (qminf q b)) (qminf q b) = true :=
        foldl_qminf_le t (qminf q b) (qminf q b) (List.mem_cons_self _ _)
      rcases List.mem_cons.mp h with rfl | h2
      · exact qleb_trans hhead (qleb_qminf_left r b)
      · rcases List.mem_cons.mp h2 with rfl | h3
        · exact qleb_trans hhead (qleb_qminf_right q r)
        · exact foldl_qminf_le t (qminf q b) r (List.mem_cons_of_mem _ h3)

theorem maxOp_spec (vs : List Value) (q : Qv) (h : maxOp vs = .num q) :
    q ∈ vs.filterMap numOf ∧ ∀ r ∈ vs.filterMap numOf, qleb r q = true := by
  unfold maxOp at h
  cases hn : vs.filterMap numOf with
  | nil => rw [hn] at h; exact absurd h (fun hh => Value.noConfusion hh)
  | cons a t =>
      rw [hn] at h
      have heq : t.foldl qmaxf a = q := by
        have := congrArg (fun v => match v with | Value.num x => x | _ => a) h
        simpa using this
      rw [← heq]
      exact ⟨foldl_qmaxf_mem t a, fun r hr => foldl_qmaxf_le t a r hr⟩

theorem minOp_spec (vs : List Value) (q : Qv) (h : minOp vs = .num q) :
    q ∈ vs.filterMap numOf ∧ ∀ r ∈ vs.filterMap numOf, qleb q r = true := by
  unfold minOp at h
  cases hn : vs.filterMap numOf with
  | nil => rw [hn] at h; exact absurd h (fun hh => Value.noConfusion hh)
  | cons a t =>
      rw [hn] at h
      have heq : t.foldl qminf a = q := by
        have := congrArg (fun v => match v with | Value.num x => x | _ => a) h
        simpa using this
      rw [← heq]
      exact ⟨foldl_qminf_mem t a, fun r hr => foldl_qminf_le t a r hr⟩

/-- C5 amended.  The canonical cross-type ordering Null < Number < String <
Object < Array < Bool is the ordering of `$cmp`: across different ranks
`$cmp` returns −1/+1 accordingly (and the `$cmp` test rows hold); `$min` and
`$max`, however, do not use it — they skip null and every non-numeric
argument and return the numeric extremum (both full test tables
reproduced), so `'13'` is ignored rather than ranked above the numbers. -/
theorem claim5_canonical_order :
    (∀ a b : Value, typeRank a < typeRank b →
        cmpValue a b = -1 ∧ cmpValue b a = 1)
    ∧ cmpCases.all (fun c => cmpValue (.num c.1) (.num (qi 250)) == c.2) = true
    ∧ maxCases.all (fun c => Value.beq (maxEval c.1) c.2) = true
    ∧ minCases.all (fun c => Value.beq (minEval c.1) c.2) = true
    ∧ (∀ vs, maxOp (.null :: vs) = maxOp vs)
    ∧ (∀ vs, minOp (.null :: vs) = minOp vs) := by
  refine ⟨?_, by decide, by decide, by decide, fun vs => rfl, fun vs => rfl⟩
  intro a b h
  constructor
  · simp [cmpValue, h]
  · simp [cmpValue, h, Nat.lt_asymm h]

/-- Witness for C5's cross-variant part: Null below Number. -/
theorem claim5_canonical_order_witness :
    cmpValue .null (.num (qi 0)) = -1 ∧ cmpValue (.num (qi 0)) .null = 1 :=
  claim5_canonical_order.1 .null (.num (qi 0)) (by decide)

/-- The rows of `describe('$abs')` (`src/tests/test_job_search.ts`). -/
def absCases : List (Value × Value) :=
  [(.null, .null), (.num (qi (-1)), .num (qi 1)), (.num (qi 1), .num (qi 1))]

/-- The rows of `describe('$ceil')`. -/
def ceilCases : List (Value × Value) :=
  [(.null, .null), (.num (qi 1), .num (qi 1)),
   (.num (qv 78 10), .num (qi 8)), (.num (qv (-28) 10), .num (qi (-2)))]

/-- The rows of `describe('$floor')`. -/
def floorCases : List (Value × Value) :=
  [(.null, .null), (.num (qi 1), .num (qi 1)),
   (.num (qv 78 10), .num (qi 7)), (.num (qv (-28) 10), .num (qi (-3)))]

/-- The rows of `describe('$add')`, `describe('$subtract')`,
`describe('$multiply')`, `describe('$divide')`, and `describe('$mod')`. -/
def binArithCases : List ((Value → Value → Value) × Value × Value × Value) :=
  [(addOp, .num (qi 10), .num (qi 2), .num (qi 12)),
   (addOp, .num (qi (-1)), .num (qi 5), .num (qi 4)),
   (addOp, .num (qi (-3)), .num (qi (-7)), .num (qi (-10))),
   (subOp, .num (qi (-1)), .num (qi (-1)), .num (qi 0)),
   (subOp, .num (qi (-1)), .num (qi 2), .num (qi (-3))),
   (subOp, .num (qi 2), .num (qi (-1)), .num (qi 3)),
   (mulOp, .num (qi 5), .num (qi 10), .num (qi 50)),
   (mulOp, .num (qi (-2)), .num (qi 4), .num (qi (-8))),
   (mulOp, .num (qi (-3)), .num (qi (-3)), .num (qi 9)),
   (divOp, .num (qi 80), .num (qi 4), .num (qi 20)),
   (divOp, .num (qv 15 10), .num (qi 3), .num (qv 5 10)),
   (divOp, .num (qi 40), .num (qi 8), .num (qi 5)),
   (modOp, .num (qi 80), .num (qi 7), .num (qi 3)),
   (modOp, .num (qi 40), .num (qi 4), .num (qi 0))]

/-- C6 amended.  Every arithmetic operator propagates null — `$add`,
`$subtract`, `$multiply`, `$divide`, `$mod`, `$round`, `$trunc` on either
side, and `$abs`, `$ceil`, `$floor`, `$sqrt` on their argument — and the
numeric test rows of the binary and unary operators are reproduced; `$max`
and `$min` skip null arguments, but (contrary to the claim) also skip
non-numeric arguments: they return the extremum of exactly the numeric
arguments and null when no numeric argument remains. -/
theorem claim6_null_propagation :
    (∀ a : Value,
        addOp .null a = .null ∧ addOp a .null = .null
        ∧ subOp .null a = .null ∧ subOp a .null = .null
        ∧ mulOp .null a = .null ∧ mulOp a .null = .null
        ∧ divOp .null a = .null ∧ divOp a .null = .null
        ∧ modOp .null a = .null ∧ modOp a .null = .null
        ∧ roundOp .null a = .null ∧ roundOp a .null = .null
        ∧ truncOp .null a = .null ∧ truncOp a .null = .null)
    ∧ absOp .null = .null ∧ ceilOp .null = .null ∧ floorOp .null = .null
    ∧ sqrtOp .null = .null
    ∧ absCases.all (fun c => Value.beq (absOp c.1) c.2) = true
    ∧ ceilCases.all (fun c => Value.beq (ceilOp c.1) c.2) = true
    ∧ floorCases.all (fun c => Value.beq (floorOp c.1) c.2) = true
    ∧ binArithCases.all (fun c => Value.beq (c.1 c.2.1 c.2.2.1) c.2.2.2) = true
    ∧ (∀ vs, maxOp (.null :: vs) = maxOp vs)
    ∧ (∀ vs, minOp (.null :: vs) = minOp vs)
    ∧ (∀ vs : List Value, vs.filterMap numOf = [] →
        maxOp vs = .null ∧ minOp vs = .null)
    ∧ (∀ (vs : List Value) (q : Qv), maxOp vs = .num q →
        q ∈ vs.filterMap numOf ∧ ∀ r ∈ vs.filterMap numOf, qleb r q = true)
    ∧ (∀ (vs : List Value) (q : Qv), minOp vs = .num q →
        q ∈ vs.filterMap numOf ∧ ∀ r ∈ vs.filterMap numOf, qleb q r = true) := by
  refine ⟨?_, rfl, rfl, rfl, rfl, by decide, by decide, by decide, by decide,
    fun vs => rfl, fun vs => rfl, ?_, maxOp_spec, minOp_spec⟩
  · intro a
    cases a <;>
      exact ⟨rfl, rfl, rfl, rfl, rfl, rfl, rfl, rfl, rfl, rfl, rfl, rfl, rfl, rfl⟩
  · intro vs h
    constructor
    · unfold maxOp
      rw [h]
    · unfold minOp
      rw [h]

/-- Witness for C6: null propagation of `$add` applied at a number, and the
numeric-extremum part of `$max` evaluated on `[1, null, 3]`. -/
theorem claim6_null_propagation_witness :
    addOp .null (.num (qi 7)) = .null
    ∧ ((qi 3) ∈ ([Value.num (qi 1), .null, .num (qi 3)].filterMap numOf)
        ∧ ∀ r ∈ ([Value.num (qi 1), .null, .num (qi 3)].filterMap numOf),
            qleb r (qi 3) = true) :=
  ⟨(claim6_null_propagation.1 (.num (qi 7))).1,
   claim6_null_propagation.2.2.2.2.2.2.2.2.2.2.2.2.1
     [Value.num (qi 1), .null, .num (qi 3)] (qi 3) rfl⟩

/-! ## Claim C7 — `$ifNull` arity -/

/-- The compile error message for a malformed `$ifNull` (spec §4.5/§7). -/
def ifNullMsg : String := "$ifNull expression must resolve to array(2)"

/-- Modelled from the spec: compiling `$ifNull` validates the arity before
any evaluation — exactly two argument subtrees are accepted and returned for
evaluation; anything else is rejected with `ifNullMsg` (spec §4.4 "validates
arity", §4.5, §7 "produced during compile; surfaced synchronously before any
evaluation occurs"). -/
def ifNullCompile (args : List Value) : Except String (Value × Value) :=
  match args with
  | [a, b] => .ok (a, b)
  | _ => .error ifNullMsg

/-- Modelled from the spec: `$ifNull [a, b]` returns `a` when `a` is
non-null and present, else `b` (spec §4.5). -/
def ifNullEval (a b : Value) : Value := if a.isNil then b else a

/-- C7.  `$ifNull` requires arity exactly 2: every argument list of another
length is rejected at compile time with the message
`$ifNull expression must resolve to array(2)` (so no evaluation occurs),
while two-element lists compile; evaluation returns the first argument when
it is non-null and present, else the second.  The final conjuncts are the
two evaluation rows of `describe('$ifNull')`. -/
theorem claim7_ifNull_arity :
    (∀ args : List Value, args.length ≠ 2 → ifNullCompile args = .error ifNullMsg)
    ∧ (∀ a b : Value, ifNullCompile [a, b] = .ok (a, b))
    ∧ (∀ a b : Value, a.isNil = false → ifNullEval a b = a)
    ∧ (∀ b : Value, ifNullEval .null b = b)
    ∧ (∀ b : Value, ifNullEval .missing b = b)
    ∧ ifNullEval .null (.str "default") = .str "default"
    ∧ ifNullEval (.num (qi 5)) (.str "default") = .num (qi 5) := by
  refine ⟨?_, fun a b => rfl, ?_, fun b => rfl, fun b => rfl, rfl, rfl⟩
  · intro args h
    match args with
    | [] => rfl
    | [a] => rfl
    | [a, b] => exact absurd rfl h
    | a :: b :: c :: rest => rfl
  · intro a b h
    simp [ifNullEval, h]

/-- Witness for C7: a three-element argument list is rejected with the
documented message. -/
theorem claim7_ifNull_arity_witness :
    ifNullCompile [.num (qi 5), .str "default", .str "error"] = .error ifNullMsg :=
  claim7_ifNull_arity.1 [.num (qi 5), .str "default", .str "error"] (by decide)

/-! ## Claim C9 — `$substr` / `$substrBytes` -/

/-- Modelled from the spec: the substring of `s` from `start` over `len`
characters — a negative start yields the empty string; a missing or negative
length runs to the end of the string (spec §4.5). -/
def substrQ (s : String) (start : Int) (len : Option Int) : String :=
  if start < 0 then ""
  else
    let t := s.data.drop start.toNat
    match len with
    | none => ⟨t⟩
    | some l => if l < 0 then ⟨t⟩ else ⟨t.take l.toNat⟩

/-- Modelled from the spec: `$substr` — null input propagates to null;
non-string inputs are outside every claim and test and map to null. -/
def substrOp (v : Value) (start : Int) (len : Option Int) : Value :=
  match v with
  | .null => .null
  | .missing => .null
  | .str s => .str (substrQ s start len)
  | _ => .null

/-- Modelled from the spec: `$substrBytes` — byte indices coincide with
character indices on the ASCII strings of the test suite (its non-ASCII rows
are commented out in `src/tests/test_job_search.ts`), so the test table pins
the same function as `$substr`. -/
def substrBytesOp (v : Value) (start : Int) (len : Option Int) : Value :=
  substrOp v start len

/-- The rows of `describe('$substr')` and of the shared
`describe('$substr/$substrBytes')` table. -/
def substrCases : List ((Value × Int × Option Int) × Value) :=
  [((.null, 2, none), .null),
   ((.str "hello", -1, none), .str ""),
   ((.str "hello", 1, some (-2)), .str "ello"),
   ((.str "abcde", 1, some 2), .str "bc"),
   ((.str "Hello World!", 6, some 5), .str "World"),
   ((.str "cafeteria", 0, some 5), .str "cafet"),
   ((.str "cafeteria", 5, some 4), .str "eria"),
   ((.str "cafeteria", 7, some 3), .str "ia"),
   ((.str "cafeteria", 3, some 1), .str "e")]

/-- C9.  `$substr`/`$substrBytes`: a negative start yields the empty string;
a non-negative start with a negative length yields the suffix from the start
index; a null input yields null; and both operators reproduce the full test
table (including `$substr ['hello', -1] = ''` and
`$substr ['hello', 1, -2] = 'ello'`). -/
theorem claim9_substr_bounds :
    (∀ (s : String) (start : Int) (len : Option Int), start < 0 →
        substrOp (.str s) start len = .str "")
    ∧ (∀ (s : String) (start l : Int), 0 ≤ start → l < 0 →
        substrOp (.str s) start (some l) = .str ⟨s.data.drop start.toNat⟩)
    ∧ (∀ (start : Int) (len : Option Int), substrOp .null start len = .null)
    ∧ substrCases.all
        (fun c => Value.beq (substrOp c.1.1 c.1.2.1 c.1.2.2) c.2) = true
    ∧ substrCases.all
        (fun c => Value.beq (substrBytesOp c.1.1 c.1.2.1 c.1.2.2) c.2) = true := by
  refine ⟨?_, ?_, fun start len => rfl, by decide, by decide⟩
  · intro s start len h
    simp [substrOp, substrQ, h]
  · intro s start l h hl
    simp [substrOp, substrQ, not_lt.mpr h, hl]

/-- Witness for C9: `$substr ['hello', -1]` is the empty string. -/
theorem claim9_substr_bounds_witness :
    substrOp (.str "hello") (-1) none = .str "" :=
  claim9_substr_bounds.1 "hello" (-1) none (by decide)

/-! ## Claim C10 — string predicates on null -/

/-- Prefix test on character lists. -/
def listStarts : List Char → List Char → Bool
  | _, [] => true
  | [], _ :: _ => false
  | a :: as, b :: bs => a == b && listStarts as bs

/-- Substring test: some suffix of the first list starts with the second. -/
def tailsHas : List Char → List Char → Bool
  | [], ys => listStarts [] ys
  | x :: xs, ys => listStarts (x :: xs) ys || tailsHas xs ys

/-- Modelled from the repository's string-predicate tests
(`describe('$contains'/'$startsWith'/'$endsWith')`): a string predicate
applied to anything but two strings — in particular to null — evaluates to
the boolean false rather than propagating null. -/
def strPred (f : String → String → Bool) : Value → Value → Value
  | .str x, .str y => .bool (f x y)
  | _, _ => .bool false

/-- `$contains`. -/
def containsOp : Value → Value → Value :=
  strPred (fun x y => tailsHas x.data y.data)

/-- `$startsWith`. -/
def startsWithOp : Value → Value → Value :=
  strPred (fun x y => listStarts x.data y.data)

/-- `$endsWith`. -/
def endsWithOp : Value → Value → Value :=
  strPred (fun x y => listStarts x.data.reverse y.data.reverse)

/-- Modelled from the spec: `$toLower` — null propagates to null; ASCII case
folding (spec §1 "localization … beyond ASCII case folding" is out of
scope). -/
def toLowerOp : Value → Value
  | .null => .null
  | .missing => .null
  | .str s => .str ⟨s.data.map Char.toLower⟩
  | _ => .null

/-- Modelled from the spec: `$toUpper`, dually. -/
def toUpperOp : Value → Value
  | .null => .null
  | .missing => .null
  | .str s => .str ⟨s.data.map Char.toUpper⟩
  | _ => .null

/-- All-strings concatenation of an argument list, if every element is a
string. -/
def strsOf : List Value → Option String
  | [] => some ""
  | .str s :: rest =>
      match strsOf rest with
      | some t => some (s ++ t)
      | none => none
  | _ => none

/-- Modelled from the spec: `$concat` — any null (or missing) argument makes
the result null; otherwise the strings are concatenated. -/
def concatOp (vs : List Value) : Value :=
  if vs.any (fun v => v.isNil) then .null
  else match strsOf vs with
    | some s => .str s
    | none => .null

/-- Split a character list on a non-empty separator; `fuel` bounds the
recursion by the list length (every step consumes at least one character). -/
def splitFuel : Nat → List Char → List Char → List Char → List (List Char)
  | 0, xs, _, acc => [acc.reverse ++ xs]
  | fuel + 1, xs, sep, acc =>
      match xs with
      | [] => [acc.reverse]
      | x :: rest =>
          if sep ≠ [] && listStarts xs sep then
            acc.reverse :: splitFuel fuel (xs.drop sep.length) sep []
          else
            splitFuel fuel rest sep (x :: acc)

/-- Modelled from the spec: `$split` splits the whole string on each
occurrence of the separator; a separator that does not occur yields a
one-element array (spec §4.5). -/
def splitStr (s sep : String) : List String :=
  (splitFuel s.data.length s.data sep.data []).map (fun cs => ⟨cs⟩)

/-- Modelled from the spec: `$split` — a null input string yields null. -/
def splitOp : Value → Value → Value
  | .null, _ => .null
  | .missing, _ => .null
  | .str s, .str sep => mkArr ((splitStr s sep).map Value.str)
  | _, _ => .null

/-- The rows of `describe('$contains')`. -/
def containsCases : List ((Value × Value) × Value) :=
  [((.null, .null), .bool false),
   ((.str "hyperactive", .str "hyper"), .bool true),
   ((.str "milliseconds", .str "not-prefix"), .bool false)]

/-- The rows of `describe('$startsWith')`. -/
def startsWithCases : List ((Value × Value) × Value) :=
  [((.null, .null), .bool false),
   ((.str "hyperactive", .str "hyper"), .bool true),
   ((.str "milliseconds", .str "not-prefix"), .bool false)]

/-- The rows of `describe('$endsWith')`. -/
def endsWithCases : List ((Value × Value) × Value) :=
  [((.null, .null), .bool false),
   ((.str "hyperactive", .str "active"), .bool true),
   ((.str "milliseconds", .str "minutes"), .bool false)]

/-- The rows of `describe('$toLower')` and `describe('$toUpper')`. -/
def caseCases : List ((Value → Value) × Value × Value) :=
  [(toLowerOp, .null, .null),
   (toLowerOp, .str "hEl1O", .str "hel1o"),
   (toUpperOp, .null, .null),
   (toUpperOp, .str "This is lOwer", .str "THIS IS LOWER")]

/-- The rows of `describe('$concat')`. -/
def concatCases : List (List Value × Value) :=
  [([.null, .str "abc"], .null),
   ([.str "a", .str "-", .str "c"], .str "a-c")]

/-- The rows of `describe('$split')`. -/
def splitCases : List ((Value × Value) × Value) :=
  [((.null, .str "/"), .null),
   ((.str "June-15-2013", .str "-"),
     mkArr [.str "June", .str "15", .str "2013"]),
   ((.str "banana split", .str "a"),
     mkArr [.str "b", .str "n", .str "n", .str " split"]),
   ((.str "Hello World", .str " "), mkArr [.str "Hello", .str "World"]),
   ((.str "astronomical", .str "astro"), mkArr [.str "", .str "nomical"]),
   ((.str "pea green boat", .str "owl"), mkArr [.str "pea green boat"])]

/-- C10.  The string predicates `$contains`, `$startsWith`, and `$endsWith`
return the boolean false whenever either argument is null — they do not
propagate null — whereas `$toLower`, `$toUpper`, `$concat`, and `$split`
return null on null input.  All six test tables are reproduced. -/
theorem claim10_string_null_policy :
    (∀ a b : Value, a = .null ∨ b = .null →
        containsOp a b = .bool false
        ∧ startsWithOp a b = .bool false
        ∧ endsWithOp a b = .bool false)
    ∧ toLowerOp .null = .null
    ∧ toUpperOp .null = .null
    ∧ (∀ vs : List Value, Value.null ∈ vs → concatOp vs = .null)
    ∧ (∀ b : Value, splitOp .null b = .null)
    ∧ containsCases.all (fun c => Value.beq (containsOp c.1.1 c.1.2) c.2) = true
    ∧ startsWithCases.all
        (fun c => Value.beq (startsWithOp c.1.1 c.1.2) c.2) = true
    ∧ endsWithCases.all (fun c => Value.beq (endsWithOp c.1.1 c.1.2) c.2) = true
    ∧ caseCases.all (fun c => Value.beq (c.1 c.2.1) c.2.2) = true
    ∧ concatCases.all (fun c => Value.beq (concatOp c.1) c.2) = true
    ∧ splitCases.all (fun c => Value.beq (splitOp c.1.1 c.1.2) c.2) = true := by
  refine ⟨?_, rfl, rfl, ?_, fun b => rfl, by decide, by decide, by decide,
    by decide, by decide, by decide⟩
  · intro a b h
    rcases h with rfl | rfl
    · cases b <;> exact ⟨rfl, rfl, rfl⟩
    · cases a <;> exact ⟨rfl, rfl, rfl⟩
  · intro vs h
    have : vs.any (fun v => v.isNil) = true :=
      List.any_eq_true.mpr ⟨.null, h, rfl⟩
    simp [concatOp, this]

/-- Witness for C10: `$contains` with a null left argument and a string
right argument is false. -/
theorem claim10_string_null_policy_witness :
    containsOp .null (.str "abc") = .bool false
    ∧ startsWithOp .null (.str "abc") = .bool false
    ∧ endsWithOp .null (.str "abc") = .bool false :=
  claim10_string_null_policy.1 .null (.str "abc") (Or.inl rfl)

/-! ## Claim C8 — the filter driver

`FilteredJobsResult` mirrors `src/src/interfaces/filtered-jobs.ts`
(`cursor`, `total`, `count` numbers and the matching jobs), generalised over
the job record type. -/

structure FilteredJobsResult (α : Type) where
  cursor : Int
  total : Nat
  count : Nat
  jobs : List α

/-- Modelled from the spec: the driver's scan loop (spec §4.6) — walk the
candidate stream in order, skip the first `skip` matches, then collect
matches up to the optional `limit`; stop as soon as the page is full.
Returns the page, the number of candidates scanned, and whether the stream
was exhausted. -/
def scanJobs {α : Type} (pred : α → Bool) : List α → Nat → Option Nat →
    List α × Nat × Bool
  | [], _, _ => ([], 0, true)
  | j :: rest, skip, limit =>
      if pred j then
        match skip with
        | n + 1 =>
            let r := scanJobs pred rest n limit
            (r.1, r.2.1 + 1, r.2.2)
        | 0 =>
            match limit with
            | some 0 => ([], 0, false)
            | some 1 => ([j], 1, false)
            | some (n + 2) =>
                let r := scanJobs pred rest 0 (some (n + 1))
                (j :: r.1, r.2.1 + 1, r.2.2)
            | none =>
                let r := scanJobs pred rest 0 none
                (j :: r.1, r.2.1 + 1, r.2.2)
      else
        let r := scanJobs pred rest skip limit
        (r.1, r.2.1 + 1, r.2.2)

/-- Modelled from the spec: the filter driver
`filter(state, query, cursor, count)` (spec §4.6) — `cursor` matches are
skipped, `count = 0` means unbounded, the result carries the page, the
candidates scanned, the page size, and the next cursor: `cursor` plus the
matches returned, or the sentinel −1 once the stream is exhausted (the spec
leaves the concrete sentinel to the implementation). -/
def filterJobs {α : Type} (pred : α → Bool) (stream : List α)
    (cursor count : Nat) : FilteredJobsResult α :=
  let limit : Option Nat := if count = 0 then none else some count
  let r := scanJobs pred stream cursor limit
  { cursor := if r.2.2 then -1 else (cursor : Int) + r.1.length
    total := r.2.1
    count := r.1.length
    jobs := r.1 }

/-- The page produced by the scan is exactly the `skip`/`limit` slice of the
filtered stream. -/
theorem scanJobs_page {α : Type} (pred : α → Bool) :
    ∀ (l : List α) (skip : Nat) (limit : Option Nat),
      (scanJobs pred l skip limit).1 =
        (match limit with
         | none => (l.filter pred).drop skip
         | some n => ((l.filter pred).drop skip).take n)
  | [], skip, limit => by cases limit <;> simp [scanJobs]
  | j :: rest, skip, limit => by
      by_cases hp : pred j
      · rw [List.filter_cons_of_pos hp]
        cases skip with
        | succ n =>
            have ih := scanJobs_page pred rest n limit
            simp only [scanJobs, hp, if_true]
            cases limit <;> simpa using ih
        | zero =>
            cases limit with
            | none =>
                have ih := scanJobs_page pred rest 0 none
                simpa [scanJobs, hp] using ih
            | some n =>
                match n with
                | 0 => simp [scanJobs, hp]
                | 1 => simp [scanJobs, hp]
                | m + 2 =>
                    have ih := scanJobs_page pred rest 0 (some (m + 1))
                    simpa [scanJobs, hp] using ih
      · rw [List.filter_cons_of_neg hp]
        have ih := scanJobs_page pred rest skip limit
        simp only [scanJobs, hp, Bool.false_eq_true, if_false]
        cases limit <;> simpa using ih

/-- The scan never reports more candidates than the stream holds. -/
theorem scanJobs_total_le {α : Type} (pred : α → Bool) :
    ∀ (l : List α) (skip : Nat) (limit : Option Nat),
      (scanJobs pred l skip limit).2.1 ≤ l.length
  | [], _, _ => by simp [scanJobs]
  | j :: rest, skip, limit => by
      by_cases hp : pred j
      · cases skip with
        | succ n =>
            have ih := scanJobs_total_le pred rest n limit
            simp only [scanJobs, hp, if_true, List.length_cons]
            omega
        | zero =>
            cases limit with
            | none =>
                have ih := scanJobs_total_le pred rest 0 none
                simp only [scanJobs, hp, if_true, List.length_cons]
                omega
            | some n =>
                match n with
                | 0 => simp [scanJobs, hp]
                | 1 => simp [scanJobs, hp]
                | m + 2 =>
                    have ih := scanJobs_total_le pred rest 0 (some (m + 1))
                    simp only [scanJobs, hp, if_true, List.length_cons]
                    omega
      · have ih := scanJobs_total_le pred rest skip limit
        simp only [scanJobs, hp, Bool.false_eq_true, if_false, List.length_cons]
        omega

/-- When the scan reports exhaustion it has scanned the whole stream. -/
theorem scanJobs_exhaust {α : Type} (pred : α → Bool) :
    ∀ (l : List α) (skip : Nat) (limit : Option Nat),
      (scanJobs pred l skip limit).2.2 = true →
      (scanJobs pred l skip limit).2.1 = l.length
  | [], _, _, _ => by simp [scanJobs]
  | j :: rest, skip, limit, h => by
      by_cases hp : pred j
      · cases skip with
        | succ n =>
            simp only [scanJobs, hp, if_true] at h ⊢
            have := scanJobs_exhaust pred rest n limit h
            simp [this]
        | zero =>
            cases limit with
            | none =>
                simp only [scanJobs, hp, if_true] at h ⊢
                have := scanJobs_exhaust pred rest 0 none h
                simp [this]
            | some n =>
                match n with
                | 0 => simp [scanJobs, hp] at h
                | 1 => simp [scanJobs, hp] at h
                | m + 2 =>
                    simp only [scanJobs, hp, if_true] at h ⊢
                    have := scanJobs_exhaust pred rest 0 (some (m + 1)) h
                    simp [this]
      · simp only [scanJobs, hp, Bool.false_eq_true, if_false] at h ⊢
        have := scanJobs_exhaust pred rest skip limit h
        simp [this]

/-- C8.  The filter driver preserves candidate order and reports pagination
correctly: the returned jobs are exactly the `cursor`/`count` slice of the
matching subsequence of the candidate stream (hence a subsequence of the
stream, in queue order, never reordered); `count` is the number of jobs in
the page; `total` never exceeds the candidates available; and the result
cursor is `cursor` plus the matches returned, or the sentinel −1 — the
latter exactly when the whole stream was scanned. -/
theorem claim8_filter_driver {α : Type} (pred : α → Bool) (stream : List α)
    (cursor count : Nat) :
    (filterJobs pred stream cursor count).jobs =
      (if count = 0 then (stream.filter pred).drop cursor
       else ((stream.filter pred).drop cursor).take count)
    ∧ ((filterJobs pred stream cursor count).jobs).Sublist (stream.filter pred)
    ∧ ((filterJobs pred stream cursor count).jobs).Sublist stream
    ∧ (filterJobs pred stream cursor count).count =
        (filterJobs pred stream cursor count).jobs.length
    ∧ (filterJobs pred stream cursor count).total ≤ stream.length
    ∧ ((filterJobs pred stream cursor count).cursor =
          (cursor : Int) + (filterJobs pred stream cursor count).count
        ∨ ((filterJobs pred stream cursor count).cursor = -1
            ∧ (filterJobs pred stream cursor count).total = stream.length)) := by
  have hpage :
      (filterJobs pred stream cursor count).jobs =
        (if count = 0 then (stream.filter pred).drop cursor
         else ((stream.filter pred).drop cursor).take count) := by
    by_cases hc : count = 0
    · simp only [filterJobs, hc, if_pos]
      simpa using scanJobs_page pred stream cursor none
    · simp only [filterJobs, hc, if_neg, ite_false]
      simpa using scanJobs_page pred stream cursor (some count)
  have hsub1 :
      ((filterJobs pred stream cursor count).jobs).Sublist (stream.filter pred) := by
    rw [hpage]
    by_cases hc : count = 0
    · simp only [hc, if_pos]
      exact List.drop_sublist _ _
    · simp only [hc, if_neg, ite_false]
      exact (List.take_sublist _ _).trans (List.drop_sublist _ _)
  refine ⟨hpage, hsub1, hsub1.trans (List.filter_sublist _), rfl,
    scanJobs_total_le pred stream cursor _, ?_⟩
  by_cases he : (scanJobs pred stream cursor
      (if count = 0 then none else some count)).2.2 = true
  · exact Or.inr ⟨by simp [filterJobs, he],
      by simpa [filterJobs] using scanJobs_exhaust pred stream cursor _ he⟩
  · left
    simp [filterJobs, he]
